import Mathlib

/-!
Shallow embedding of `merramax` (`src/model/MmxRequest.py`) and proofs about
its trial-planning, workspace-staging and contribution-aggregation pipeline.

Python strings are modelled as Lean `String`, Python floats as `ℚ`
(exact arithmetic; the claims under study concern accumulation, ordering and
totality, not rounding), Python dicts as insertion-ordered association lists,
and the file system as an explicit state value threaded through the staging
operations.  The random source of `random.sample` is abstracted as an
arbitrary function `ℕ → ℕ` supplying the draw at each step.
-/

namespace Mmx

/-! ### Python string primitives -/

/-- Model of the question whether one character list starts with another
(`str.startswith`, used to realise the `in` operator below). -/
def charsLead : List Char → List Char → Bool
  | [], _ => true
  | _ :: _, [] => false
  | a :: as, b :: bs => a == b && charsLead as bs

/-- Model of the Python `in` operator on strings, at the level of character
lists: does `sub` occur contiguously inside the second argument? -/
def charsHave (sub : List Char) : List Char → Bool
  | [] => sub.isEmpty
  | c :: rest => charsLead sub (c :: rest) || charsHave sub rest

/-- Python `sub in s` for strings. -/
def strContains (s sub : String) : Bool :=
  charsHave sub.data s.data

/-- Drop leading whitespace characters (one side of Python `str.strip`). -/
def dropLeadingWS : List Char → List Char
  | [] => []
  | c :: rest => if c.isWhitespace then dropLeadingWS rest else c :: rest

/-- Python `str.strip()`: remove leading and trailing whitespace. -/
def pyStrip (s : String) : String :=
  ⟨(dropLeadingWS (dropLeadingWS s.data).reverse).reverse⟩

/-- The characters before the first occurrence of `sep`, i.e. element `[0]`
of Python `str.split(sep)` for a non-empty separator (the whole string when
the separator does not occur). -/
def splitHead (sep : List Char) : List Char → List Char
  | [] => []
  | c :: rest =>
    if charsLead sep (c :: rest) then [] else c :: splitHead sep rest

/-- `os.path.join(a, b)`. -/
def joinPath (a b : String) : String := a ++ "/" ++ b

/-- The characters of a reversed path up to its first slash. -/
def revUntilSlash : List Char → List Char
  | [] => []
  | c :: rest => if c == '/' then [] else c :: revUntilSlash rest

/-- `os.path.basename(p)`: the part after the last slash. -/
def baseName (p : String) : String :=
  ⟨(revUntilSlash p.data.reverse).reverse⟩

/-! ### File-system state

The file system is a pair of a directory list and a file map (path to
content), both insertion-ordered.  `writeFile` replaces the content of an
existing path in place and appends a new path at the end, so a state is a
canonical map and state equality is decidable. -/

structure FS where
  dirs : List String
  files : List (String × String)
deriving DecidableEq

/-- `os.path.exists p`. -/
def FS.existsPath (fs : FS) (p : String) : Bool :=
  fs.dirs.contains p || fs.files.any (fun e => e.1 == p)

/-- `os.path.isdir p`. -/
def FS.isDir (fs : FS) (p : String) : Bool := fs.dirs.contains p

/-- `os.mkdir p` (the sources always guard it with an existence check). -/
def FS.mkdir (fs : FS) (p : String) : FS :=
  { fs with dirs := fs.dirs ++ [p] }

/-- The guarded pattern `if not os.path.exists(p): os.mkdir(p)`. -/
def mkdirIfMissing (fs : FS) (p : String) : FS :=
  if fs.existsPath p then fs else fs.mkdir p

/-- Content of the file at `p`, when present. -/
def FS.readFile (fs : FS) (p : String) : Option String :=
  (fs.files.find? (fun e => e.1 == p)).map (·.2)

/-- Write `c` at path `p`, replacing in place when the path already exists. -/
def FS.writeFile (fs : FS) (p c : String) : FS :=
  if fs.files.any (fun e => e.1 == p) then
    { fs with files := fs.files.map (fun e => if e.1 == p then (e.1, c) else e) }
  else
    { fs with files := fs.files ++ [(p, c)] }

/-- `shutil.copyfile src dst`: `none` when the source is unreadable.  The
returned flag records whether the destination already existed, i.e. whether
this call overwrote an existing file. -/
def FS.copyTo (fs : FS) (src dst : String) : Option (FS × Bool) :=
  (fs.readFile src).map (fun c => (fs.writeFile dst c, fs.existsPath dst))

/-! ### `MmxRequest.__init__` (directory handling) -/

/-- A raised Python exception, by class. -/
inductive PyError where
  | typeError (msg : String)
  | runtimeError (msg : String)
deriving DecidableEq

/-- The directory fields the constructor computes. -/
structure MmxPaths where
  outputDirectory : String
  ascDir : String
  merraDir : String
  trialsDir : String
deriving DecidableEq

/-- Message of the `TypeError` produced by evaluating
`RuntimeError(str(outputDirectory)) + ' does not exist.'`: the parenthesis
of the intended message sits after the constructor argument, so the code
adds an exception object to a string, which raises a `TypeError` before the
`raise` statement can deliver its operand. -/
def initTypeErrorMsg : String :=
  "unsupported operand type(s) for +: RuntimeError and str"

/-- Directory handling of `MmxRequest.__init__` (src/model/MmxRequest.py,
lines 32 to 63): validate the output directory, then create the `asc`,
`merra` and `trials` sub-directories when missing.  The state is returned
unchanged on the error paths, which the source reaches before any `mkdir`. -/
def mmxInit (fs : FS) (outputDirectory : String) :
    FS × Except PyError MmxPaths :=
  if ¬ fs.existsPath outputDirectory then
    (fs, .error (.typeError initTypeErrorMsg))
  else if ¬ fs.isDir outputDirectory then
    (fs, .error (.runtimeError (outputDirectory ++ " must be a directory.")))
  else
    let ascDir := joinPath outputDirectory "asc"
    let merraDir := joinPath outputDirectory "merra"
    let trialsDir := joinPath outputDirectory "trials"
    let fs1 := mkdirIfMissing fs ascDir
    let fs2 := mkdirIfMissing fs1 merraDir
    let fs3 := mkdirIfMissing fs2 trialsDir
    (fs3, .ok ⟨outputDirectory, ascDir, merraDir, trialsDir⟩)

/-! ### `_compileContributions` (src/model/MmxRequest.py, lines 68 to 106)

A result table is modelled with its numeric cells already parsed to `ℚ`
(`float(...)` in the source); a file whose first line cannot be read
(`results.__next__()` raising) is the `unreadable` constructor, and a
missing file is absence from the store. -/

/-- The marker substring `CONTRIB_KWD = 'permutation'`. -/
def CONTRIB_KWD : String := "permutation"

/-- `key.split(CONTRIB_KWD)[0].strip()`. -/
def extractPredictor (key : String) : String :=
  pyStrip ⟨splitHead CONTRIB_KWD.data key.data⟩

/-- The accumulated contributions dictionary: predictor name to sample list,
in insertion order. -/
abbrev Contribs := List (String × List ℚ)

/-- The body of the inner loop:
`if newKey not in contributions: contributions[newKey] = []` followed by
`contributions[newKey].append(...)`. -/
def addContribution (d : Contribs) (k : String) (v : ℚ) : Contribs :=
  if d.any (fun e => e.1 == k) then
    d.map (fun e => if e.1 == k then (e.1, e.2 ++ [v]) else e)
  else
    d ++ [(k, [v])]

/-- One insertion into a Python dict: replace in place when the key is
present, append otherwise. -/
def pyDictInsert (d : List (String × ℚ)) (kv : String × ℚ) :
    List (String × ℚ) :=
  if d.any (fun e => e.1 == kv.1) then
    d.map (fun e => if e.1 == kv.1 then (e.1, kv.2) else e)
  else
    d ++ [kv]

/-- `dict(zip(header, row))`: keys in first-occurrence order, later values
replacing earlier ones; `zip` truncates to the shorter list. -/
def pyDict (l : List (String × ℚ)) : List (String × ℚ) :=
  l.foldl pyDictInsert []

/-- The per-row loop: for every key of `dict(zip(header, row))` containing
the marker, append the value under the stripped key. -/
def processRow (contribs : Contribs) (header : List String) (row : List ℚ) :
    Contribs :=
  (pyDict (header.zip row)).foldl
    (fun acc kv =>
      if strContains kv.1 CONTRIB_KWD then
        addContribution acc (extractPredictor kv.1) kv.2
      else acc)
    contribs

/-- Content found at a result-table path: `unreadable` models a present file
whose header line cannot be read. -/
inductive CsvContent where
  | unreadable : CsvContent
  | table (header : List String) (rows : List (List ℚ)) : CsvContent
deriving DecidableEq

/-- The result tables on disk, keyed by path; a path absent from the store
is a missing file. -/
abbrev ResultStore := List (String × CsvContent)

/-- Association-list lookup in the store. -/
def lookupStore (store : ResultStore) (p : String) : Option CsvContent :=
  (store.find? (fun e => e.1 == p)).map (·.2)

/-- `os.path.join(trial.directory, 'maxentResults.csv')`. -/
def resultsPath (trialDir : String) : String :=
  joinPath trialDir "maxentResults.csv"

/-- Message of the `FileNotFoundError` Python raises when `open` fails. -/
def fileNotFoundMsg (p : String) : String :=
  "No such file or directory: " ++ p

/-- `_compileContributions(trials)`, faithfully including the `return`
statement that sits inside the `for trial in trials` loop: the dictionary is
returned as soon as the first trial of the list has been processed, and with
an empty trial list the loop body never runs and Python returns `None`
(modelled as `none`). -/
def compileContributions (store : ResultStore) (trialDirs : List String) :
    Except String (Option Contribs) :=
  match trialDirs with
  | [] => .ok none
  | trial :: _ =>
    let resultsFile := resultsPath trial
    match lookupStore store resultsFile with
    | none => .error (fileNotFoundMsg resultsFile)
    | some .unreadable => .error ("Error reading " ++ resultsFile)
    | some (.table header rows) =>
      .ok (some (rows.foldl (fun acc row => processRow acc header row) []))

/-! ### `getTopTen` (src/model/MmxRequest.py, lines 133 to 160) -/

/-- The divisor `max(len(samples), 1)` of the average computation. -/
def avgDivisor (samples : List ℚ) : ℕ := max samples.length 1

/-- `float(sum(samples) / max(len(samples), 1))`. -/
def averageOf (samples : List ℚ) : ℚ :=
  samples.sum / (avgDivisor samples : ℚ)

/-- The `averages` dictionary: same keys as `contributions`, in order. -/
def averagesOf (contribs : Contribs) : List (String × ℚ) :=
  contribs.map (fun e => (e.1, averageOf e.2))

/-- The comparison realising `sorted(..., key=lambda x: x[1], reverse=True)`:
descending by value; a stable sort under this comparison keeps ties in
original key order, exactly as Python `sorted` does. -/
def avgGE (a b : String × ℚ) : Bool := decide (b.2 ≤ a.2)

/-- `sorted(averages.items(), key=lambda x: x[1], reverse=True)`. -/
def sortedAverages (contribs : Contribs) : List (String × ℚ) :=
  (averagesOf contribs).mergeSort avgGE

/-- The ranking `sortedAvgs = sorted(...)[:10]`. -/
def topAverages (contribs : Contribs) : List (String × ℚ) :=
  (sortedAverages contribs).take 10

/-- The path `os.path.join(self._merraDir, k + '.nc')` built for each ranked
predictor name. -/
def resolvePredictor (merraDir k : String) : String :=
  joinPath merraDir (k ++ ".nc")

/-- The `topTen` list of resolved predictor paths. -/
def topTenPaths (merraDir : String) (contribs : Contribs) : List String :=
  (topAverages contribs).map (fun kv => resolvePredictor merraDir kv.1)

/-- `getTopTen(trials)` composed with `_compileContributions`: an exception
from aggregation propagates, and the `None` returned for an empty trial list
makes `contributions.keys()` raise an `AttributeError`. -/
def getTopTen (store : ResultStore) (merraDir : String)
    (trialDirs : List String) : Except String (List String) :=
  match compileContributions store trialDirs with
  | .error e => .error e
  | .ok none => .error "AttributeError: NoneType object has no attribute keys"
  | .ok (some contribs) => .ok (topTenPaths merraDir contribs)

/-- Modelled from the spec: the master predictor pool produced by the
Preparing state.  `MaxEntRequest.prepareImages` is not under src; by spec
section 6, `RasterPreparationService.prepare(observation, rasterList,
outputDir)` writes one prepared raster per input under `outputDir`, and the
controller passes its `asc` directory as `outputDir`, so the pool consists
of paths inside the `asc` directory. -/
def preparedPoolPaths (ascDir : String) (names : List String) : List String :=
  names.map (fun n => joinPath ascDir n)

/-! ### `getTrialImagesIndexes` (src/model/MmxRequest.py, lines 170 to 193) -/

/-- `PREDICTORS_PER_TRIAL = 10`. -/
def PREDICTORS_PER_TRIAL : ℕ := 10

/-- The message of the pool-size guard, concatenated exactly as in the
source. -/
def insufficientMsg (numImages : ℕ) : String :=
  "There are " ++ toString numImages ++ " images and " ++
  toString PREDICTORS_PER_TRIAL ++
  " predictors required for each trial.  " ++
  "This is insufficient to generate random sets of " ++
  "predictors for the trials.  Consider broadening the " ++
  "image request."

/-- One draw of `random.sample(population, k)`: `k` times, remove a randomly
chosen remaining element and emit it.  The random source is abstracted as
`rand`, an arbitrary stream of naturals; the position removed at a step is
`rand step` reduced modulo the remaining population size, so every list
`random.sample` can return is `sampleFrom rand k population` for some
`rand`, and conversely.  (`random.sample` raises when `k` exceeds the
population size; the source only calls it with `k` at most the population
size, below.) -/
def sampleFrom (rand : ℕ → ℕ) : ℕ → List ℕ → List ℕ
  | 0, _ => []
  | _ + 1, [] => []
  | k + 1, p :: ps =>
    let pop := p :: ps
    let i := rand (k + 1) % pop.length
    pop.getD i 0 :: sampleFrom rand k (pop.eraseIdx i)

/-- `getTrialImagesIndexes(images)` over a pool of `numImages` prepared
images: after the pool-size guard, one call
`random.sample(range(0, len(images) - 1), PREDICTORS_PER_TRIAL)` per trial
number in `range(1, numTrials + 1)`.  Note the population is
`range(0, numImages - 1)`, whose greatest element is `numImages - 2`. -/
def getTrialImagesIndexes (rand : ℕ → ℕ → ℕ) (numTrials numImages : ℕ) :
    Except String (List (List ℕ)) :=
  if numImages ≤ PREDICTORS_PER_TRIAL then
    .error (insufficientMsg numImages)
  else
    .ok ((List.range' 1 numTrials).map
      (fun i => sampleFrom (rand i) PREDICTORS_PER_TRIAL
        (List.range (numImages - 1))))

/-! ### `prepareOneTrial` (src/model/MmxRequest.py, lines 212 to 251) -/

/-- An `ObservationFile`: backing path and species label. -/
structure ObsFile where
  filePath : String
  species : String
deriving DecidableEq

/-- The `Trial` namedtuple. -/
structure TrialData where
  directory : String
  obsFile : ObsFile
  images : List String
deriving DecidableEq

/-- Body of the predictor-copy loop of `prepareOneTrial`: build the staged
path from the base name and copy only when it does not exist yet. -/
def stagePredictorStep (trialAscDir : String) (st : Option (FS × List String))
    (ascGif : String) : Option (FS × List String) :=
  match st with
  | none => none
  | some (f, ow) =>
    let trialAscGif := joinPath trialAscDir (baseName ascGif)
    if f.existsPath trialAscGif then some (f, ow)
    else
      match f.copyTo ascGif trialAscGif with
      | none => none
      | some (f2, o2) => some (f2, if o2 then ow ++ [trialAscGif] else ow)

/-- `prepareOneTrial(images, trialImageIndexes, trialNum)`.  `trialName` is
`str(trialNum)` (a number, or the reserved literal `final`).  Returns the
new file-system state, the `Trial` value, and the list of destination paths
whose `shutil.copyfile` call overwrote an already existing file; `none` when
a `copyfile` source is unreadable.  The observation copy is unconditional in
the source, while each predictor copy is guarded by an existence check. -/
def prepareOneTrial (trialsDir : String) (obs : ObsFile)
    (images : List String) (trialImageIndexes : List ℕ) (trialName : String)
    (fs : FS) : Option (FS × TrialData × List String) :=
  let TRIAL_DIR := joinPath trialsDir ("trial-" ++ trialName)
  let fs1 := mkdirIfMissing fs TRIAL_DIR
  let trialObsPath := joinPath TRIAL_DIR (baseName obs.filePath)
  match fs1.copyTo obs.filePath trialObsPath with
  | none => none
  | some (fs2, obsOverwrote) =>
    let trialObs : ObsFile := ⟨trialObsPath, obs.species⟩
    let trialPredictors := trialImageIndexes.map (fun i => images.getD i "")
    let trialAscDir := joinPath TRIAL_DIR "asc"
    let fs3 := mkdirIfMissing fs2 trialAscDir
    let copied := trialPredictors.foldl (stagePredictorStep trialAscDir)
      (some (fs3, if obsOverwrote then [trialObsPath] else []))
    match copied with
    | none => none
    | some (fs4, ow) => some (fs4, ⟨TRIAL_DIR, trialObs, trialPredictors⟩, ow)

instance {ε α : Type} [DecidableEq ε] [DecidableEq α] :
    DecidableEq (Except ε α) := fun a b =>
  match a, b with
  | .error e, .error f => decidable_of_iff (e = f) (by simp)
  | .error _, .ok _ => isFalse (by simp)
  | .ok _, .error _ => isFalse (by simp)
  | .ok x, .ok y => decidable_of_iff (x = y) (by simp)

/-- The index list `range(0, len(topTen) - 1)` with which `run` stages the
final trial (src/model/MmxRequest.py, line 301). -/
def finalTrialIndexes (topTenLength : ℕ) : List ℕ :=
  List.range (topTenLength - 1)

/-- The predictors the final trial receives:
`[topTen[i] for i in range(0, len(topTen) - 1)]`. -/
def finalTrialImages (topTen : List String) : List String :=
  (finalTrialIndexes topTen.length).map (fun i => topTen.getD i "")

/-! ### Concrete fixtures -/

/-- Two executed trials whose result tables each hold exactly one matching
column `predA permutation importance`, with single values `0.2` and `0.8`. -/
def twoTrialStore : ResultStore :=
  [(resultsPath "t1", .table ["predA permutation importance"] [[mkRat 1 5]]),
   (resultsPath "t2", .table ["predA permutation importance"] [[mkRat 4 5]])]

/-- A store holding only the first trial's result table. -/
def firstTrialStore : ResultStore :=
  [(resultsPath "t1", .table ["predA permutation importance"] [[mkRat 1 5]])]

/-- A workspace before any staging: the output tree exists and the
observation file and one prepared image are readable. -/
def stagingFS0 : FS :=
  ⟨["out", "out/trials"], [("obs.csv", "OBSDATA"), ("img1.asc", "I1")]⟩

/-- The observation dataset used in the staging fixtures. -/
def stagingObs : ObsFile := ⟨"obs.csv", "sp"⟩

/-- The workspace after one staging call on `stagingFS0`. -/
def stagingFS1 : FS :=
  ⟨["out", "out/trials", "out/trials/trial-1", "out/trials/trial-1/asc"],
   [("obs.csv", "OBSDATA"), ("img1.asc", "I1"),
    ("out/trials/trial-1/obs.csv", "OBSDATA"),
    ("out/trials/trial-1/asc/img1.asc", "I1")]⟩

/-! ### Helper lemmas -/

/-- Every element drawn by `sampleFrom` comes from the population. -/
theorem sampleFrom_subset (rand : ℕ → ℕ) :
    ∀ (k : ℕ) (pop : List ℕ) (x : ℕ), x ∈ sampleFrom rand k pop → x ∈ pop := by
  intro k
  induction k with
  | zero => intro pop x hx; simp [sampleFrom] at hx
  | succ k ih =>
    intro pop x hx
    match pop with
    | [] => simp [sampleFrom] at hx
    | p :: ps =>
      simp only [sampleFrom, List.mem_cons] at hx
      rcases hx with hx | hx
      · have hlt : (rand (k + 1)) % (p :: ps).length < (p :: ps).length :=
          Nat.mod_lt _ (by simp)
        subst hx
        simp only [List.getD_eq_getElem?_getD, List.getElem?_eq_getElem hlt,
          Option.getD_some]
        exact List.getElem_mem hlt
      · exact List.eraseIdx_subset _ _ (ih _ x hx)

/-- The final-stage selection drops exactly the last ranked entry. -/
theorem finalTrialImages_eq_dropLast (l : List String) :
    finalTrialImages l = l.dropLast := by
  apply List.ext_getElem
  · simp [finalTrialImages, finalTrialIndexes]
  · intro i h1 h2
    simp only [finalTrialImages, finalTrialIndexes, List.getElem_map,
      List.getElem_range, List.getElem_dropLast]
    have hi : i < l.length := lt_of_lt_of_le
      (by simpa [finalTrialImages, finalTrialIndexes] using h1)
      (Nat.sub_le _ _)
    simp [List.getD_eq_getElem?_getD, List.getElem?_eq_getElem hi]

/-- The descending comparison is transitive. -/
theorem avgGE_trans (a b c : String × ℚ) :
    avgGE a b → avgGE b c → avgGE a c := by
  simp only [avgGE, decide_eq_true_eq]
  intro h1 h2
  exact le_trans h2 h1

/-- The descending comparison is total. -/
theorem avgGE_total (a b : String × ℚ) : avgGE a b || avgGE b a := by
  simp only [avgGE, Bool.or_eq_true, decide_eq_true_eq]
  exact le_total b.2 a.2

/-- Writing a file never removes a path. -/
theorem existsPath_writeFile {fs : FS} {q : String} (p c : String)
    (h : fs.existsPath q = true) : (fs.writeFile p c).existsPath q = true := by
  simp only [FS.existsPath, FS.writeFile, Bool.or_eq_true, List.any_eq_true] at h ⊢
  split
  · rcases h with h | ⟨e, he, hq⟩
    · exact Or.inl h
    · refine Or.inr ⟨if e.1 == p then (e.1, c) else e, List.mem_map_of_mem _ he, ?_⟩
      split <;> simpa using hq
  · rcases h with h | ⟨e, he, hq⟩
    · exact Or.inl h
    · exact Or.inr ⟨e, List.mem_append_left _ he, hq⟩

/-- Creating a directory never removes a path. -/
theorem existsPath_mkdirIfMissing {fs : FS} {q : String} (p : String)
    (h : fs.existsPath q = true) : (mkdirIfMissing fs p).existsPath q = true := by
  simp only [mkdirIfMissing]
  split
  · exact h
  · simp only [FS.existsPath, FS.mkdir, Bool.or_eq_true] at h ⊢
    rcases h with h | h
    · exact Or.inl (by
        simp only [List.contains_eq_any_beq, List.any_eq_true] at h ⊢
        rcases h with ⟨e, he, hq⟩
        exact ⟨e, List.mem_append_left _ he, hq⟩)
    · exact Or.inr h

/-- Copying a file never removes a path. -/
theorem existsPath_copyTo {fs f2 : FS} {q src dst : String} {o : Bool}
    (hc : fs.copyTo src dst = some (f2, o))
    (h : fs.existsPath q = true) : f2.existsPath q = true := by
  simp only [FS.copyTo, Option.map_eq_some'] at hc
  rcases hc with ⟨c, _, heq⟩
  have hf2 : fs.writeFile dst c = f2 := congrArg Prod.fst heq
  rw [← hf2]
  exact existsPath_writeFile _ _ h

/-- The predictor-copy loop never removes a path and never appends to the
overwrite log: every copy it performs targets a path that did not exist. -/
theorem stageFold_spec (dir : String) :
    ∀ (l : List String) (f : FS) (ow : List String) (res : FS × List String),
      l.foldl (stagePredictorStep dir) (some (f, ow)) = some res →
      (∀ q, f.existsPath q = true → res.1.existsPath q = true) ∧ res.2 = ow := by
  intro l
  induction l with
  | nil =>
    intro f ow res h
    simp only [List.foldl_nil, Option.some.injEq] at h
    subst h
    exact ⟨fun q hq => hq, rfl⟩
  | cons a l ih =>
    intro f ow res h
    simp only [List.foldl_cons] at h
    rcases hstep : stagePredictorStep dir (some (f, ow)) a with _ | fo
    · exfalso
      rw [hstep] at h
      have hnone : ∀ (l' : List String),
          l'.foldl (stagePredictorStep dir) none = none := by
        intro l'
        induction l' with
        | nil => rfl
        | cons b l' ihb => simp [List.foldl_cons, stagePredictorStep, ihb]
      rw [hnone] at h
      exact Option.noConfusion h
    · rw [hstep] at h
      obtain ⟨f1, ow1⟩ := fo
      have hrest := ih f1 ow1 res h
      simp only [stagePredictorStep] at hstep
      split at hstep
      · simp only [Option.some.injEq, Prod.mk.injEq] at hstep
        obtain ⟨hf, how⟩ := hstep
        subst hf; subst how
        exact hrest
      · rename_i hex
        rcases hcopy : f.copyTo a (joinPath dir (baseName a)) with _ | f2o
        · rw [hcopy] at hstep; exact Option.noConfusion hstep
        · rw [hcopy] at hstep
          obtain ⟨f2, o2⟩ := f2o
          have ho2 : o2 = false := by
            simp only [FS.copyTo, Option.map_eq_some'] at hcopy
            rcases hcopy with ⟨c, _, heq⟩
            have hsnd : f.existsPath (joinPath dir (baseName a)) = o2 :=
              congrArg Prod.snd heq
            rw [← hsnd]
            simpa using hex
          simp only [ho2, Bool.false_eq_true, if_false,
            Option.some.injEq, Prod.mk.injEq] at hstep
          obtain ⟨hf, how⟩ := hstep
          subst hf; subst how
          refine ⟨fun q hq => hrest.1 q ?_, hrest.2⟩
          exact existsPath_copyTo (by rw [hcopy, ho2]) hq

/-- The predictor-copy loop cannot recover from a failed state. -/
theorem stageFold_none (dir : String) (l : List String) :
    l.foldl (stagePredictorStep dir) none = none := by
  induction l with
  | nil => rfl
  | cons b l ih => simp [List.foldl_cons, stagePredictorStep, ih]

/-- Reading back a freshly written path yields the written content. -/
theorem readFile_writeFile_same (fs : FS) (p c : String) :
    (fs.writeFile p c).readFile p = some c := by
  simp only [FS.writeFile, FS.readFile]
  split
  · rename_i h
    rw [List.find?_map]
    have hpred : ((fun e : String × String => e.1 == p) ∘
        (fun e : String × String => if e.1 == p then (e.1, c) else e))
          = (fun e : String × String => e.1 == p) := by
      funext x
      simp only [Function.comp]
      split <;> rfl
    rw [hpred]
    rw [List.any_eq_true] at h
    obtain ⟨e, he, hp⟩ := h
    cases hfind : fs.files.find? (fun e => e.1 == p) with
    | none =>
      rw [List.find?_eq_none] at hfind
      exact absurd hp (hfind e he)
    | some e0 =>
      have hk : e0.1 = p := by simpa using List.find?_some hfind
      simp [hk]
  · rename_i h
    rw [List.find?_append]
    have hnone : fs.files.find? (fun e => e.1 == p) = none := by
      rw [List.find?_eq_none]
      intro x hx hpx
      exact h (List.any_eq_true.mpr ⟨x, hx, hpx⟩)
    rw [hnone]
    simp

/-- Writing one path leaves the content of every other path unchanged. -/
theorem readFile_writeFile_other (fs : FS) (p c q : String) (hne : q ≠ p) :
    (fs.writeFile p c).readFile q = fs.readFile q := by
  simp only [FS.writeFile, FS.readFile]
  split
  · rw [List.find?_map]
    have hpred : ((fun e : String × String => e.1 == q) ∘
        (fun e : String × String => if e.1 == p then (e.1, c) else e))
          = (fun e : String × String => e.1 == q) := by
      funext x
      simp only [Function.comp]
      split <;> rfl
    rw [hpred]
    cases hfind : fs.files.find? (fun e => e.1 == q) with
    | none => rfl
    | some e0 =>
      have hk' : e0.1 = q := by simpa using List.find?_some hfind
      simp [hk', hne]
  · rw [List.find?_append]
    have h2 : ([(p, c)].find? (fun e => e.1 == q)) = none := by
      have : (p == q) = false := by simpa using (Ne.symm hne)
      simp [this]
    rw [h2]
    simp

/-- Creating a directory leaves every file content unchanged. -/
theorem readFile_mkdirIfMissing (fs : FS) (p q : String) :
    (mkdirIfMissing fs p).readFile q = fs.readFile q := by
  simp only [mkdirIfMissing, FS.mkdir, FS.readFile]
  split <;> rfl

/-- Creating a directory leaves the file table unchanged. -/
theorem files_mkdirIfMissing (fs : FS) (p : String) :
    (mkdirIfMissing fs p).files = fs.files := by
  simp only [mkdirIfMissing, FS.mkdir]
  split <;> rfl

/-- A readable path exists. -/
theorem existsPath_of_readFile {fs : FS} {q c : String}
    (h : fs.readFile q = some c) : fs.existsPath q = true := by
  simp only [FS.readFile, Option.map_eq_some'] at h
  obtain ⟨e, hfind, -⟩ := h
  simp only [FS.existsPath, Bool.or_eq_true, List.any_eq_true]
  exact Or.inr ⟨e, List.mem_of_find?_eq_some hfind,
    by simpa using List.find?_some hfind⟩

/-- The guarded mkdir is the identity on states that already have the
directory. -/
theorem mkdirIfMissing_of_exists {fs : FS} {p : String}
    (h : fs.existsPath p = true) : mkdirIfMissing fs p = fs := by
  simp [mkdirIfMissing, h]

/-- After the guarded mkdir the directory exists. -/
theorem existsPath_mkdirIfMissing_self (fs : FS) (p : String) :
    (mkdirIfMissing fs p).existsPath p = true := by
  simp only [mkdirIfMissing]
  split
  · assumption
  · simp [FS.existsPath, FS.mkdir]

/-- Writing a file keeps the path table free of duplicates. -/
theorem keys_writeFile_nodup {fs : FS} (p c : String)
    (h : (fs.files.map Prod.fst).Nodup) :
    ((fs.writeFile p c).files.map Prod.fst).Nodup := by
  simp only [FS.writeFile]
  split
  · rename_i hany
    show ((fs.files.map (fun e => if e.1 == p then (e.1, c) else e)).map
      Prod.fst).Nodup
    have hkeys : (fs.files.map (fun e => if e.1 == p then (e.1, c) else e)).map
        Prod.fst = fs.files.map Prod.fst := by
      rw [List.map_map]
      congr 1
      funext e
      simp only [Function.comp]
      split <;> rfl
    rw [hkeys]
    exact h
  · rename_i hany
    show ((fs.files ++ [(p, c)]).map Prod.fst).Nodup
    rw [List.map_append, List.nodup_append]
    refine ⟨h, by simp, ?_⟩
    intro x hx hxp
    simp only [List.map_cons, List.map_nil, List.mem_singleton] at hxp
    subst hxp
    simp only [List.mem_map] at hx
    obtain ⟨e, he, hkey⟩ := hx
    exact hany (List.any_eq_true.mpr ⟨e, he, by simp [hkey]⟩)

/-- Re-writing a path with the content it already holds is the identity,
provided the file table has no duplicate paths. -/
theorem writeFile_self_noop {fs : FS} {p c : String}
    (h1 : fs.readFile p = some c)
    (h2 : (fs.files.map Prod.fst).Nodup) : fs.writeFile p c = fs := by
  simp only [FS.readFile, Option.map_eq_some'] at h1
  obtain ⟨e0, hfind, hval⟩ := h1
  have hmem := List.mem_of_find?_eq_some hfind
  have hk : (e0.1 == p) = true := by simpa using List.find?_some hfind
  have hk' : e0.1 = p := by simpa using hk
  have hany : fs.files.any (fun e => e.1 == p) = true :=
    List.any_eq_true.mpr ⟨e0, hmem, hk⟩
  have hmap : fs.files.map (fun e => if e.1 == p then (e.1, c) else e)
      = fs.files := by
    have hpt : ∀ x ∈ fs.files, (if x.1 == p then (x.1, c) else x) = x := by
      intro x hx
      by_cases hxp : (x.1 == p) = true
      · have hx' : x.1 = p := by simpa using hxp
        have hxe : x = e0 :=
          List.inj_on_of_nodup_map h2 hx hmem (by rw [hx', hk'])
        rw [if_pos hxp, hxe, ← hval]
      · rw [if_neg hxp]
    calc fs.files.map (fun e => if e.1 == p then (e.1, c) else e)
        = fs.files.map id := List.map_congr_left hpt
      _ = fs.files := List.map_id _
  simp only [FS.writeFile, hany, if_true, hmap]

/-- The predictor-copy loop leaves the content of any path outside its
destination list unchanged. -/
theorem stageFold_readFile (dir q : String) :
    ∀ (l : List String) (f : FS) (ow : List String) (res : FS × List String),
      q ∉ l.map (fun g => joinPath dir (baseName g)) →
      l.foldl (stagePredictorStep dir) (some (f, ow)) = some res →
      res.1.readFile q = f.readFile q := by
  intro l
  induction l with
  | nil =>
    intro f ow res _ h
    simp only [List.foldl_nil, Option.some.injEq] at h
    rw [← h]
  | cons a l ih =>
    intro f ow res hq h
    simp only [List.map_cons, List.mem_cons, not_or] at hq
    obtain ⟨hq1, hq2⟩ := hq
    simp only [List.foldl_cons] at h
    rcases hstep : stagePredictorStep dir (some (f, ow)) a with _ | fo
    · rw [hstep, stageFold_none] at h
      exact Option.noConfusion h
    · rw [hstep] at h
      obtain ⟨f1, ow1⟩ := fo
      have hrest := ih f1 ow1 res hq2 h
      rw [hrest]
      simp only [stagePredictorStep] at hstep
      split at hstep
      · simp only [Option.some.injEq, Prod.mk.injEq] at hstep
        rw [hstep.1]
      · rcases hcopy : f.copyTo a (joinPath dir (baseName a)) with _ | f2o
        · rw [hcopy] at hstep
          exact Option.noConfusion hstep
        · rw [hcopy] at hstep
          obtain ⟨f2, o2⟩ := f2o
          simp only [Option.some.injEq, Prod.mk.injEq] at hstep
          simp only [FS.copyTo, Option.map_eq_some'] at hcopy
          obtain ⟨cc, hr, heq⟩ := hcopy
          have hf2 : f.writeFile (joinPath dir (baseName a)) cc = f2 :=
            congrArg Prod.fst heq
          rw [← hstep.1, ← hf2]
          exact readFile_writeFile_other _ _ _ _ hq1

/-- The predictor-copy loop keeps the path table free of duplicates. -/
theorem stageFold_keys_nodup (dir : String) :
    ∀ (l : List String) (f : FS) (ow : List String) (res : FS × List String),
      (f.files.map Prod.fst).Nodup →
      l.foldl (stagePredictorStep dir) (some (f, ow)) = some res →
      (res.1.files.map Prod.fst).Nodup := by
  intro l
  induction l with
  | nil =>
    intro f ow res hn h
    simp only [List.foldl_nil, Option.some.injEq] at h
    rw [← h]
    exact hn
  | cons a l ih =>
    intro f ow res hn h
    simp only [List.foldl_cons] at h
    rcases hstep : stagePredictorStep dir (some (f, ow)) a with _ | fo
    · rw [hstep, stageFold_none] at h
      exact Option.noConfusion h
    · rw [hstep] at h
      obtain ⟨f1, ow1⟩ := fo
      refine ih f1 ow1 res ?_ h
      simp only [stagePredictorStep] at hstep
      split at hstep
      · simp only [Option.some.injEq, Prod.mk.injEq] at hstep
        rw [← hstep.1]
        exact hn
      · rcases hcopy : f.copyTo a (joinPath dir (baseName a)) with _ | f2o
        · rw [hcopy] at hstep
          exact Option.noConfusion hstep
        · rw [hcopy] at hstep
          obtain ⟨f2, o2⟩ := f2o
          simp only [Option.some.injEq, Prod.mk.injEq] at hstep
          simp only [FS.copyTo, Option.map_eq_some'] at hcopy
          obtain ⟨cc, hr, heq⟩ := hcopy
          have hf2 : f.writeFile (joinPath dir (baseName a)) cc = f2 :=
            congrArg Prod.fst heq
          rw [← hstep.1, ← hf2]
          exact keys_writeFile_nodup _ _ hn

/-- After a successful run of the predictor-copy loop every staged
destination exists. -/
theorem stageFold_dest_exists (dir : String) :
    ∀ (l : List String) (f : FS) (ow : List String) (res : FS × List String),
      l.foldl (stagePredictorStep dir) (some (f, ow)) = some res →
      ∀ g ∈ l, res.1.existsPath (joinPath dir (baseName g)) = true := by
  intro l
  induction l with
  | nil =>
    intro f ow res _ g hg
    simp at hg
  | cons a l ih =>
    intro f ow res h g hg
    simp only [List.foldl_cons] at h
    rcases hstep : stagePredictorStep dir (some (f, ow)) a with _ | fo
    · rw [hstep, stageFold_none] at h
      exact Option.noConfusion h
    · rw [hstep] at h
      obtain ⟨f1, ow1⟩ := fo
      rcases List.mem_cons.mp hg with hga | hgl
      · subst hga
        refine (stageFold_spec dir l f1 ow1 res h).1 _ ?_
        simp only [stagePredictorStep] at hstep
        split at hstep
        · rename_i hex
          simp only [Option.some.injEq, Prod.mk.injEq] at hstep
          rw [← hstep.1]
          exact hex
        · rcases hcopy : f.copyTo g (joinPath dir (baseName g)) with _ | f2o
          · rw [hcopy] at hstep
            exact Option.noConfusion hstep
          · rw [hcopy] at hstep
            obtain ⟨f2, o2⟩ := f2o
            simp only [Option.some.injEq, Prod.mk.injEq] at hstep
            simp only [FS.copyTo, Option.map_eq_some'] at hcopy
            obtain ⟨cc, hr, heq⟩ := hcopy
            have hf2 : f.writeFile (joinPath dir (baseName g)) cc = f2 :=
              congrArg Prod.fst heq
            rw [← hstep.1, ← hf2]
            exact existsPath_of_readFile (readFile_writeFile_same _ _ _)
      · exact ih f1 ow1 res h g hgl

/-- When every staged destination already exists, the predictor-copy loop
changes nothing: every copy is skipped. -/
theorem stageFold_all_exists_noop (dir : String) :
    ∀ (l : List String) (f : FS) (ow : List String),
      (∀ g ∈ l, f.existsPath (joinPath dir (baseName g)) = true) →
      l.foldl (stagePredictorStep dir) (some (f, ow)) = some (f, ow) := by
  intro l
  induction l with
  | nil => intro f ow _; rfl
  | cons a l ih =>
    intro f ow h
    simp only [List.foldl_cons, stagePredictorStep,
      h a (List.mem_cons_self a l), if_true]
    exact ih f ow (fun g hg => h g (List.mem_cons_of_mem a hg))

/-! ### Claims -/

/-- C1: contribution aggregation stops after the first supplied trial: with
two trials whose tables hold the single matching column values `0.2` and
`0.8`, the code yields `predA -> [0.2]` (mean `0.2`), not the cross-trial
sample list `[0.2, 0.8]` (mean `0.5`) the claim requires, because the
`return` statement sits inside the `for trial in trials` loop. -/
theorem c1_first_trial_only :
    compileContributions twoTrialStore ["t1", "t2"]
      = .ok (some [("predA", [mkRat 1 5])]) ∧
    compileContributions twoTrialStore ["t1", "t2"]
      ≠ .ok (some [("predA", [mkRat 1 5, mkRat 4 5])]) ∧
    averageOf [mkRat 1 5] = mkRat 1 5 ∧ mkRat 1 5 ≠ mkRat 1 2 := by
  refine ⟨by decide, by decide, ?_, by decide⟩
  simp [averageOf, avgDivisor]

/-- C3: the final retraining trial is staged from the index range
`range(0, len(topTen) - 1)`, which selects exactly `dropLast` of the
ranking: the last ranked predictor is dropped and the staged predictor
count is one less than the ranking size, contradicting the claim. -/
theorem c3_final_trial_drops_last :
    (∀ topTen : List String, finalTrialImages topTen = topTen.dropLast) ∧
    finalTrialImages ["predA", "predB"] = ["predA"] ∧
    "predB" ∉ finalTrialImages ["predA", "predB"] ∧
    (finalTrialImages ["predA", "predB"]).length = 1 :=
  ⟨finalTrialImages_eq_dropLast, by decide, by decide, by decide⟩

/-- C8: when the FIRST trial's result table is missing or unreadable the
code does fail with an error naming the path and no ranking is produced,
but a missing table of any LATER trial goes unnoticed: the early `return`
ends aggregation after the first trial, so the claim fails for it. -/
theorem c8_error_only_for_first_trial :
    compileContributions firstTrialStore ["t1", "t2"]
      = .ok (some [("predA", [mkRat 1 5])]) ∧
    compileContributions firstTrialStore ["t2", "t1"]
      = .error (fileNotFoundMsg (resultsPath "t2")) ∧
    strContains (fileNotFoundMsg (resultsPath "t2")) (resultsPath "t2")
      = true ∧
    compileContributions [(resultsPath "t3", .unreadable)] ["t3"]
      = .error ("Error reading " ++ resultsPath "t3") ∧
    strContains ("Error reading " ++ resultsPath "t3") (resultsPath "t3")
      = true ∧
    getTopTen firstTrialStore "out/merra" ["t2", "t1"]
      = .error (fileNotFoundMsg (resultsPath "t2")) := by
  decide

/-- C10: the average computation is total: its divisor `max(len(samples), 1)`
is always positive, and a predictor mapped to an empty sample list yields
average `0` rather than a division by zero. -/
theorem c10_average_total :
    (∀ samples : List ℚ, 0 < avgDivisor samples) ∧
    averageOf [] = 0 ∧
    averagesOf [("p", [])] = [("p", 0)] :=
  ⟨fun samples => Nat.lt_of_lt_of_le Nat.zero_lt_one (le_max_right _ _),
   by simp [averageOf], by simp [averagesOf, averageOf]⟩

/-- C2: trial planning samples from `range(0, len(images) - 1)`, so the last
pool index `poolSize - 1` can never be drawn, whatever the random source:
at pool size 12 no plan ever contains the index 11, contradicting the claim
that every element of `[0, poolSize)` can be drawn. -/
theorem c2_last_index_never_drawn :
    ∀ (rand : ℕ → ℕ → ℕ) (plan : List (List ℕ)) (t : List ℕ),
      getTrialImagesIndexes rand 1 12 = .ok plan → t ∈ plan → 11 ∉ t := by
  intro rand plan t hok ht hmem
  have hplan : plan = [sampleFrom (rand 1) PREDICTORS_PER_TRIAL (List.range 11)] := by
    simp only [getTrialImagesIndexes,
      if_neg (by decide : ¬ (12 ≤ PREDICTORS_PER_TRIAL))] at hok
    injection hok with h
    exact h.symm
  rw [hplan, List.mem_singleton] at ht
  rw [ht] at hmem
  have := sampleFrom_subset (rand 1) PREDICTORS_PER_TRIAL (List.range 11) 11 hmem
  simp [List.mem_range] at this

/-- C2 witness: with the random source constantly `0`, pool size 12 and one
trial, the concrete plan is `[[0, ..., 9]]` and indeed does not contain 11. -/
theorem c2_witness :
    getTrialImagesIndexes (fun _ _ => 0) 1 12
      = .ok [[0, 1, 2, 3, 4, 5, 6, 7, 8, 9]] ∧
    (11 : ℕ) ∉ ([0, 1, 2, 3, 4, 5, 6, 7, 8, 9] : List ℕ) :=
  ⟨by decide,
   c2_last_index_never_drawn (fun _ _ => 0)
     [[0, 1, 2, 3, 4, 5, 6, 7, 8, 9]] [0, 1, 2, 3, 4, 5, 6, 7, 8, 9]
     (by decide) (by decide)⟩

/-- C5: for any pool size at most `PREDICTORS_PER_TRIAL = 10`, planning
fails with the insufficient-pool message, which states the pool size, the
predictors-per-trial count, and suggests broadening; for pool size 11
planning succeeds with a plan, whatever the random source. -/
theorem c5_pool_size_guard :
    (∀ (rand : ℕ → ℕ → ℕ) (numTrials numImages : ℕ),
        numImages ≤ PREDICTORS_PER_TRIAL →
        getTrialImagesIndexes rand numTrials numImages
          = .error (insufficientMsg numImages) ∧
        strContains (insufficientMsg numImages) (toString numImages) = true ∧
        strContains (insufficientMsg numImages) (toString PREDICTORS_PER_TRIAL)
          = true ∧
        strContains (insufficientMsg numImages) "broadening" = true) ∧
    (∀ (rand : ℕ → ℕ → ℕ) (numTrials : ℕ), ∃ plan,
        getTrialImagesIndexes rand numTrials (PREDICTORS_PER_TRIAL + 1)
          = .ok plan) := by
  constructor
  · intro rand numTrials numImages h
    refine ⟨by simp [getTrialImagesIndexes, h], ?_, ?_, ?_⟩
    · have h10 : numImages ≤ 10 := h
      interval_cases numImages <;> decide
    · have h10 : numImages ≤ 10 := h
      interval_cases numImages <;> decide
    · have h10 : numImages ≤ 10 := h
      interval_cases numImages <;> decide
  · intro rand numTrials
    exact ⟨_, rfl⟩

/-- C5 witness: the guard at the boundary pool size 10, and success at pool
size 11, with the constant-zero random source and three trials. -/
theorem c5_witness :
    (getTrialImagesIndexes (fun _ _ => 0) 3 10 = .error (insufficientMsg 10) ∧
     strContains (insufficientMsg 10) (toString (10 : ℕ)) = true ∧
     strContains (insufficientMsg 10) (toString PREDICTORS_PER_TRIAL) = true ∧
     strContains (insufficientMsg 10) "broadening" = true) ∧
    (∃ plan, getTrialImagesIndexes (fun _ _ => 0) 3 (PREDICTORS_PER_TRIAL + 1)
        = .ok plan) :=
  ⟨c5_pool_size_guard.1 (fun _ _ => 0) 3 10 (by decide),
   c5_pool_size_guard.2 (fun _ _ => 0) 3⟩

/-- C6: the ranking step computes the arithmetic mean for every predictor
with at least one sample, sorts descending by mean with ties kept in
original key order (the sort is stable), truncates to at most ten entries,
and keeps every predictor when fewer than ten have samples. -/
theorem c6_ranking_properties (c : Contribs) :
    (∀ k s, (k, s) ∈ c → s ≠ [] →
        (k, s.sum / (s.length : ℚ)) ∈ averagesOf c) ∧
    (topAverages c).Pairwise (fun a b => b.2 ≤ a.2) ∧
    (∀ a b, List.Sublist [a, b] (averagesOf c) → b.2 ≤ a.2 →
        List.Sublist [a, b] (sortedAverages c)) ∧
    (topAverages c).length ≤ 10 ∧
    (c.length < 10 → topAverages c = sortedAverages c ∧
        ∀ kv ∈ averagesOf c, kv ∈ topAverages c) := by
  refine ⟨?_, ?_, ?_, ?_, ?_⟩
  · intro k s hmem hne
    have havg : averageOf s = s.sum / (s.length : ℚ) := by
      have hlen : 1 ≤ s.length := by
        cases s with
        | nil => exact absurd rfl hne
        | cons a l => simp
      simp [averageOf, avgDivisor, Nat.max_eq_left hlen]
    rw [← havg]
    exact List.mem_map_of_mem _ hmem
  · have hs := List.sorted_mergeSort avgGE_trans avgGE_total (averagesOf c)
    have ht : List.Sublist (topAverages c) (sortedAverages c) :=
      List.take_sublist _ _
    exact (hs.sublist ht).imp (fun h => by simpa [avgGE] using h)
  · intro a b hsub hle
    exact List.pair_sublist_mergeSort avgGE_trans avgGE_total
      (by simpa [avgGE] using hle) hsub
  · simp only [topAverages, List.length_take]
    exact Nat.min_le_left _ _
  · intro hlt
    have hlen : (sortedAverages c).length ≤ 10 := by
      simp only [sortedAverages, List.length_mergeSort, averagesOf,
        List.length_map]
      omega
    have heq : topAverages c = sortedAverages c := by
      simp only [topAverages]
      exact List.take_of_length_le hlen
    refine ⟨heq, ?_⟩
    intro kv hkv
    rw [heq]
    simp only [sortedAverages, List.mem_mergeSort]
    exact hkv

/-- C6 witness: on a concrete two-predictor contributions map, the first
predictor's arithmetic mean appears in the averages table, and the ranking
length is within ten. -/
theorem c6_witness :
    ("a", ([mkRat 1 5, mkRat 3 5] : List ℚ).sum
        / ((([mkRat 1 5, mkRat 3 5] : List ℚ).length : ℕ) : ℚ))
      ∈ averagesOf [("a", [mkRat 1 5, mkRat 3 5]), ("b", [mkRat 4 5])] ∧
    (topAverages [("a", [mkRat 1 5, mkRat 3 5]), ("b", [mkRat 4 5])]).length
      ≤ 10 :=
  ⟨(c6_ranking_properties _).1 "a" [mkRat 1 5, mkRat 3 5]
      (by decide) (by decide),
   (c6_ranking_properties _).2.2.2.1⟩

/-- C9: with a missing output directory the constructor fails before
creating anything, but through the `TypeError` produced by the misplaced
parenthesis in `raise RuntimeError(str(outputDirectory)) + '...'` rather
than the intended configuration error; with an existing non-directory it
fails with the intended message.  In both cases the state is returned
untouched: no `asc`, `merra` or `trials` directory is created. -/
theorem c9_invalid_output_dir :
    (∀ (fs : FS) (out : String), fs.existsPath out = false →
        mmxInit fs out = (fs, .error (.typeError initTypeErrorMsg))) ∧
    (∀ (fs : FS) (out : String), fs.existsPath out = true →
        fs.isDir out = false →
        mmxInit fs out
          = (fs, .error (.runtimeError (out ++ " must be a directory.")))) := by
  constructor
  · intro fs out h
    simp [mmxInit, h]
  · intro fs out h1 h2
    simp [mmxInit, h1, h2]

/-- C9 witness: a concrete missing path on an empty state, and a concrete
file (not directory) given as output directory. -/
theorem c9_witness :
    mmxInit ⟨[], []⟩ "/missing"
      = (⟨[], []⟩, .error (.typeError initTypeErrorMsg)) ∧
    mmxInit ⟨[], [("f", "c")]⟩ "f"
      = (⟨[], [("f", "c")]⟩,
         .error (.runtimeError ("f" ++ " must be a directory."))) :=
  ⟨c9_invalid_output_dir.1 ⟨[], []⟩ "/missing" (by decide),
   c9_invalid_output_dir.2 ⟨[], [("f", "c")]⟩ "f" (by decide) (by decide)⟩

/-- C4 counterexample: after one staging call the observation copy exists,
and the second identical staging call performs an overwriting `copyfile`
onto that existing path (the copy is unguarded in the source), refuting
`no existing file is ever overwritten by a staging call`. -/
theorem c4_counterexample :
    stagingFS1.existsPath "out/trials/trial-1/obs.csv" = true ∧
    (prepareOneTrial "out/trials" stagingObs ["img1.asc"] [0] "1"
        stagingFS1).map (fun r => r.2.2)
      = some ["out/trials/trial-1/obs.csv"] := by
  decide

/-- C4 (amended): staging never removes a path and the only path an
existing file is ever overwritten at is the observation copy (predictor
copies are guarded by an existence check); moreover, whenever the staged
source files are distinct from the staging destinations (sources live
outside the trial workspace) and the file table holds no duplicate paths, a
second staging call with the same trial identifier and inputs returns the
workspace state and the Trial value of the single call unchanged, its only
overwriting copy being the observation file, re-copied with identical
content on every call. -/
theorem c4_staging_idempotent_but_obs_recopied :
    (∀ (trialsDir : String) (obs : ObsFile) (images : List String)
        (idxs : List ℕ) (name : String) (fs : FS)
        (res : FS × TrialData × List String),
        prepareOneTrial trialsDir obs images idxs name fs = some res →
        (∀ q, fs.existsPath q = true → res.1.existsPath q = true) ∧
        (∀ p ∈ res.2.2,
            p = joinPath (joinPath trialsDir ("trial-" ++ name))
                  (baseName obs.filePath))) ∧
    (∀ (trialsDir : String) (obs : ObsFile) (images : List String)
        (idxs : List ℕ) (name : String) (fs fs' : FS) (t : TrialData)
        (ow : List String),
        (fs.files.map Prod.fst).Nodup →
        obs.filePath ∉ (idxs.map (fun i => images.getD i "")).map
          (fun g => joinPath
            (joinPath (joinPath trialsDir ("trial-" ++ name)) "asc")
            (baseName g)) →
        obs.filePath
          ≠ joinPath (joinPath trialsDir ("trial-" ++ name))
              (baseName obs.filePath) →
        joinPath (joinPath trialsDir ("trial-" ++ name))
            (baseName obs.filePath)
          ∉ (idxs.map (fun i => images.getD i "")).map
            (fun g => joinPath
              (joinPath (joinPath trialsDir ("trial-" ++ name)) "asc")
              (baseName g)) →
        prepareOneTrial trialsDir obs images idxs name fs
          = some (fs', t, ow) →
        prepareOneTrial trialsDir obs images idxs name fs'
          = some (fs', t,
              [joinPath (joinPath trialsDir ("trial-" ++ name))
                (baseName obs.filePath)])) := by
  refine ⟨?_, ?_⟩
  swap
  · intro trialsDir obs images idxs name fs fs' t ow hnd hsrc hso hod h
    simp only [prepareOneTrial] at h
    split at h
    · exact Option.noConfusion h
    · rename_i fs2 obsOv hcopy
      split at h
      · exact Option.noConfusion h
      · rename_i fs4 ow1 hfold
        injection h with hA
        injection hA with hA hrest
        injection hrest with hB hC
        subst hA
        subst hB
        subst hC
        simp only [FS.copyTo, Option.map_eq_some'] at hcopy
        obtain ⟨c, hread1, hpr⟩ := hcopy
        have hfs2 : (mkdirIfMissing fs
            (joinPath trialsDir ("trial-" ++ name))).writeFile
              (joinPath (joinPath trialsDir ("trial-" ++ name))
                (baseName obs.filePath)) c = fs2 := congrArg Prod.fst hpr
        have hT1 := existsPath_mkdirIfMissing_self fs
          (joinPath trialsDir ("trial-" ++ name))
        have hT2 : fs2.existsPath (joinPath trialsDir ("trial-" ++ name))
            = true := by
          rw [← hfs2]
          exact existsPath_writeFile _ _ hT1
        have hT3 := existsPath_mkdirIfMissing
          (q := joinPath trialsDir ("trial-" ++ name))
          (joinPath (joinPath trialsDir ("trial-" ++ name)) "asc") hT2
        have hT4 : fs4.existsPath (joinPath trialsDir ("trial-" ++ name))
            = true :=
          (stageFold_spec _ _ _ _ _ hfold).1 _ hT3
        have hA3 := existsPath_mkdirIfMissing_self fs2
          (joinPath (joinPath trialsDir ("trial-" ++ name)) "asc")
        have hA4 : fs4.existsPath
            (joinPath (joinPath trialsDir ("trial-" ++ name)) "asc")
              = true :=
          (stageFold_spec _ _ _ _ _ hfold).1 _ hA3
        have hR2 : fs2.readFile obs.filePath = some c := by
          rw [← hfs2, readFile_writeFile_other _ _ _ _ hso]
          exact hread1
        have hR3 : (mkdirIfMissing fs2
            (joinPath (joinPath trialsDir ("trial-" ++ name))
              "asc")).readFile obs.filePath = some c := by
          rw [readFile_mkdirIfMissing]
          exact hR2
        have hR4 : fs4.readFile obs.filePath = some c :=
          (stageFold_readFile _ obs.filePath _ _ _ _ hsrc hfold).trans hR3
        have hD2 : fs2.readFile
            (joinPath (joinPath trialsDir ("trial-" ++ name))
              (baseName obs.filePath)) = some c := by
          rw [← hfs2]
          exact readFile_writeFile_same _ _ _
        have hD3 : (mkdirIfMissing fs2
            (joinPath (joinPath trialsDir ("trial-" ++ name))
              "asc")).readFile
            (joinPath (joinPath trialsDir ("trial-" ++ name))
              (baseName obs.filePath)) = some c := by
          rw [readFile_mkdirIfMissing]
          exact hD2
        have hD4 : fs4.readFile
            (joinPath (joinPath trialsDir ("trial-" ++ name))
              (baseName obs.filePath)) = some c :=
          (stageFold_readFile _ _ _ _ _ _ hod hfold).trans hD3
        have hN1 : ((mkdirIfMissing fs
            (joinPath trialsDir ("trial-" ++ name))).files.map
              Prod.fst).Nodup := by
          rw [files_mkdirIfMissing]
          exact hnd
        have hN2 : (fs2.files.map Prod.fst).Nodup := by
          rw [← hfs2]
          exact keys_writeFile_nodup _ _ hN1
        have hN3 : ((mkdirIfMissing fs2
            (joinPath (joinPath trialsDir ("trial-" ++ name))
              "asc")).files.map Prod.fst).Nodup := by
          rw [files_mkdirIfMissing]
          exact hN2
        have hN4 : (fs4.files.map Prod.fst).Nodup :=
          stageFold_keys_nodup _ _ _ _ _ hN3 hfold
        have hE4 : fs4.existsPath
            (joinPath (joinPath trialsDir ("trial-" ++ name))
              (baseName obs.filePath)) = true :=
          existsPath_of_readFile hD4
        have hdst := stageFold_dest_exists _ _ _ _ _ hfold
        have e1 : mkdirIfMissing fs4 (joinPath trialsDir ("trial-" ++ name))
            = fs4 := mkdirIfMissing_of_exists hT4
        have ew : fs4.writeFile
            (joinPath (joinPath trialsDir ("trial-" ++ name))
              (baseName obs.filePath)) c = fs4 :=
          writeFile_self_noop hD4 hN4
        have e2 : fs4.copyTo obs.filePath
            (joinPath (joinPath trialsDir ("trial-" ++ name))
              (baseName obs.filePath)) = some (fs4, true) := by
          simp only [FS.copyTo, hR4, Option.map_some']
          rw [ew, hE4]
        have e3 : mkdirIfMissing fs4
            (joinPath (joinPath trialsDir ("trial-" ++ name)) "asc")
              = fs4 := mkdirIfMissing_of_exists hA4
        have e4 : (idxs.map (fun i => images.getD i "")).foldl
            (stagePredictorStep
              (joinPath (joinPath trialsDir ("trial-" ++ name)) "asc"))
            (some (fs4,
              [joinPath (joinPath trialsDir ("trial-" ++ name))
                (baseName obs.filePath)]))
              = some (fs4,
                  [joinPath (joinPath trialsDir ("trial-" ++ name))
                    (baseName obs.filePath)]) :=
          stageFold_all_exists_noop _ _ _ _ (fun g hg => hdst g hg)
        have e4n : List.foldl (stagePredictorStep
              (joinPath (joinPath trialsDir ("trial-" ++ name)) "asc"))
            (some (fs4,
              [joinPath (joinPath trialsDir ("trial-" ++ name))
                (baseName obs.filePath)]))
            (List.map (fun i => images[i]?.getD "") idxs)
              = some (fs4,
                  [joinPath (joinPath trialsDir ("trial-" ++ name))
                    (baseName obs.filePath)]) := by
          simpa using e4
        simp [prepareOneTrial, e1, e2, e3, e4n]
  intro trialsDir obs images idxs name fs res h
  simp only [prepareOneTrial] at h
  split at h
  · exact Option.noConfusion h
  · rename_i fs2 obsOv hcopy
    split at h
    · exact Option.noConfusion h
    · rename_i fs4 ow hfold
      have hspec := stageFold_spec _ _ _ _ _ hfold
      injection h with h
      subst h
      constructor
      · intro q hq
        refine hspec.1 q ?_
        refine existsPath_mkdirIfMissing _ ?_
        refine existsPath_copyTo hcopy ?_
        exact existsPath_mkdirIfMissing _ hq
      · intro p hp
        rw [hspec.2] at hp
        split at hp
        · simpa using hp
        · simp at hp

/-- C4 witness: the idempotency part of the staging theorem applied to the
concrete staging fixture (the second call reproduces the state and Trial of
the first and re-copies only the observation file), together with the
no-deletion part applied at a pre-existing source file. -/
theorem c4_witness :
    prepareOneTrial "out/trials" stagingObs ["img1.asc"] [0] "1" stagingFS1
      = some (stagingFS1,
          ⟨"out/trials/trial-1", ⟨"out/trials/trial-1/obs.csv", "sp"⟩,
           ["img1.asc"]⟩, ["out/trials/trial-1/obs.csv"]) ∧
    stagingFS1.existsPath "obs.csv" = true :=
  ⟨c4_staging_idempotent_but_obs_recopied.2 "out/trials" stagingObs
      ["img1.asc"] [0] "1" stagingFS0 stagingFS1
      ⟨"out/trials/trial-1", ⟨"out/trials/trial-1/obs.csv", "sp"⟩,
       ["img1.asc"]⟩ []
      (by decide) (by decide) (by decide) (by decide) (by decide),
   (c4_staging_idempotent_but_obs_recopied.1 "out/trials" stagingObs
      ["img1.asc"] [0] "1" stagingFS0
      (stagingFS1,
        ⟨"out/trials/trial-1", ⟨"out/trials/trial-1/obs.csv", "sp"⟩,
         ["img1.asc"]⟩, [])
      (by decide)).1 "obs.csv" (by decide)⟩

/-- C7 counterexample: with a concrete ranking and a concrete prepared pool
under the `asc` directory, the resolved final-subset path lies under the
`merra` directory and is not a member of the prepared pool. -/
theorem c7_counterexample :
    topTenPaths (joinPath "out" "merra") [("predA", [mkRat 1 2])]
      = ["out/merra/predA.nc"] ∧
    "out/merra/predA.nc"
      ∉ preparedPoolPaths (joinPath "out" "asc") ["predA.asc"] := by
  constructor
  · simp only [topTenPaths, topAverages, sortedAverages, averagesOf,
      List.map_cons, List.map_nil, List.mergeSort_singleton,
      List.take_succ_cons, List.take_nil, resolvePredictor, joinPath]
    rfl
  · decide

/-- C7 (amended): every ranked predictor is resolved by constructing the
path `merraDir/<identifier>.nc` inside the raw `merra` directory, so no
resolved final-subset path is ever a member of the prepared pool, which
lives under the sibling `asc` directory. -/
theorem c7_resolves_into_merra_not_pool :
    ∀ (out : String) (c : Contribs) (names : List String) (p : String),
      p ∈ topTenPaths (joinPath out "merra") c →
      p ∉ preparedPoolPaths (joinPath out "asc") names := by
  intro out c names p hmem hpool
  simp only [topTenPaths, List.mem_map] at hmem
  obtain ⟨kv, -, hp⟩ := hmem
  simp only [preparedPoolPaths, List.mem_map] at hpool
  obtain ⟨n, -, hq⟩ := hpool
  have hd := congrArg String.data (hp.trans hq.symm)
  simp only [resolvePredictor, joinPath, String.data_append] at hd
  simp only [List.append_assoc, List.cons_append, List.nil_append] at hd
  have hc := List.append_cancel_left hd
  injection hc with h1 h2
  injection h2 with h3 h4
  exact absurd h3 (by decide)

/-- C7 witness: the resolution theorem applied at a concrete ranking, pool
and path, together with the concrete value of the resolved path list. -/
theorem c7_witness :
    "x/merra/predB.nc"
      ∉ preparedPoolPaths (joinPath "x" "asc") ["predB.asc"] ∧
    topTenPaths (joinPath "x" "merra") [("predB", [mkRat 1 2])]
      = ["x/merra/predB.nc"] :=
  ⟨c7_resolves_into_merra_not_pool "x" [("predB", [mkRat 1 2])]
      ["predB.asc"] "x/merra/predB.nc"
      (by simp only [topTenPaths, topAverages, sortedAverages, averagesOf,
            List.map_cons, List.map_nil, List.mergeSort_singleton,
            List.take_succ_cons, List.take_nil, resolvePredictor, joinPath,
            List.mem_singleton]
          rfl),
   by simp only [topTenPaths, topAverages, sortedAverages, averagesOf,
        List.map_cons, List.map_nil, List.mergeSort_singleton,
        List.take_succ_cons, List.take_nil, resolvePredictor, joinPath]
      rfl⟩

end Mmx
